import Mathlib

/-!
Verification of annotatOS against its specification.

This file gives a shallow embedding, in Lean 4, of the parts of the
annotatOS sources that the specification's testable claims speak about:

* the stage-1 boot loaders of both build profiles
  (`src/boot.asm` — Profile B, and `src/boot/boot.asm` — Profile A);
* the kernel heap allocator (`src/memory.c`);
* the VGA text-mode screen driver (`screen.c`, shipped as
  `src/unnamed/part_010`);
* the interrupt-driven PS/2 keyboard driver and its 256-byte ring buffer
  (`keyboard.c`, shipped as `src/unnamed/part_012`);
* the process manager (`src/process.c`).

Every definition is translated from the source file it names; machine
integers are modelled as `Nat` (the C code only ever computes
non-negative in-range values on the paths the claims exercise, and any
place where overflow or sign could matter is noted in a comment), and
the cursor coordinates of the screen driver are modelled as `Int`
because the driver stores them in C `int`s and the specification's
invariant claim explicitly includes the lower bounds `0 <= row`,
`0 <= col`.
-/

namespace AnnotatOS

/-! ## Stage-1 boot loaders (`src/boot.asm`, `src/boot/boot.asm`)

Both stage-1 loaders issue a single BIOS `int 0x13` read (AH=0x02) and
then branch on the outcome: carry flag set, or a transferred-sector
count in AL different from the requested count, takes the error label;
otherwise the loader prints a success string and executes the
unconditional `jmp KERNEL_OFFSET`.  We model the loader's behaviour as
a function of the firmware-reported pair (carry flag, AL). -/

/-- The two build profiles.  `a` is the compact real-mode profile whose
stage 1 is `src/boot/boot.asm`; `b` is the extended protected-mode
profile whose stage 1 is `src/boot.asm`. -/
inductive Profile where
  | a : Profile
  | b : Profile
deriving DecidableEq, Repr

/-- Sector count each stage-1 loader requests from BIOS:
`mov al, 10` in `src/boot/boot.asm` (Profile A), `mov al, 15` in
`src/boot.asm` (Profile B). -/
def requestedSectors : Profile → Nat
  | .a => 10
  | .b => 15

/-- Observable outcome of a stage-1 boot attempt: either the success
jump `jmp KERNEL_OFFSET` to the loaded code at 0x1000, or the error
label (`disk_error` / `.disk_error`). -/
inductive BootOutcome where
  | jumpToLoaded : BootOutcome
  | errorPath : BootOutcome
deriving DecidableEq, Repr

/-- Control flow of either stage-1 loader after `int 0x13` returns,
as a function of the firmware-reported carry flag and the
transferred-sector count in AL.

Source (`src/boot/boot.asm` lines 84-97 and `src/boot.asm` lines
141-154): `jc disk_error`, then `cmp al, <requested>` / `jne
disk_error`, and only then the success print and `jmp KERNEL_OFFSET`. -/
def stage1Outcome (p : Profile) (carry : Bool) (al : Nat) : BootOutcome :=
  if carry then .errorPath
  else if al ≠ requestedSectors p then .errorPath
  else .jumpToLoaded

/-- Atomic actions a loader's error label performs, in order. -/
inductive BootAction where
  | printError : BootAction
  | maskInterrupts : BootAction
  | haltCpu : BootAction
  | loopForever : BootAction
deriving DecidableEq, Repr

/-- Instruction sequence at the error label of each stage-1 loader.

Profile A (`src/boot/boot.asm` `disk_error:`, lines 99-108):
`mov si, msg_error` / `call print`, then `cli`, `hlt`, `jmp $`.

Profile B (`src/boot.asm` `.disk_error:`, lines 156-160):
`mov si, msg_disk_error` / `call print_string`, then `jmp $` only —
there is no `cli` and no `hlt` on this path. -/
def stage1ErrorActions : Profile → List BootAction
  | .a => [.printError, .maskInterrupts, .haltCpu, .loopForever]
  | .b => [.printError, .loopForever]

/-! ## Kernel heap allocator (`src/memory.c`)

The allocator keeps an intrusive singly-linked list of blocks starting
at `heap_start`; consecutive list nodes are physically contiguous
(`memory_init` creates one block spanning the heap, `kmalloc`'s split
inserts the new trailing block right after the shrunk one, and
`kfree`'s coalescing only removes nodes), so we model the list as a
`List` of block records in address order; a block's header address is
`KERNEL_HEAP_START` plus the sum of `header + size` over the blocks
before it.  `free_list` always points at the first block (no code path
ever unlinks the head), so the model list is the whole free list. -/

/-- `sizeof(mem_block_t)` on the i386 freestanding target:
`uint32_t size` (4) + `int is_free` (4) + `struct mem_block *next` (4). -/
def memBlockHeaderSize : Nat := 12

/-- `KERNEL_HEAP_START` from `src/kernel.h` line 62. -/
def KERNEL_HEAP_START : Nat := 0x100000

/-- `KERNEL_HEAP_SIZE` from `src/kernel.h` line 63. -/
def KERNEL_HEAP_SIZE : Nat := 0x100000

/-- One node of the allocator's block list: the `size` and `is_free`
fields of `mem_block_t` (`src/memory.c` lines 14-18).  The `next`
pointer is represented by list adjacency. -/
structure MemBlock where
  size : Nat
  isFree : Bool
deriving DecidableEq, Repr

/-- Allocator state: the block list headed by `free_list`, and the
`total_allocated` counter (`src/memory.c` lines 22-23).  `heapSize`
records the size the heap was initialized with (`KERNEL_HEAP_SIZE` in
the shipped kernel; kept as a field so the init-time constant appears
once). -/
structure Heap where
  blocks : List MemBlock
  totalAllocated : Nat
  heapSize : Nat
deriving DecidableEq, Repr

/-- `memory_init` (`src/memory.c` lines 25-33): one free block whose
size is the heap size minus one header. -/
def memory_init (S : Nat) : Heap :=
  { blocks := [{ size := S - memBlockHeaderSize, isFree := true }]
    totalAllocated := 0
    heapSize := S }

/-- `size = (size + 3) & ~3` (`src/memory.c` line 39): round up to a
4-byte boundary.  `(n + 3) & ~3` clears the two low bits of `n + 3`,
i.e. equals `(n + 3) - (n + 3) % 4` (exact on `Nat`; the C `uint32_t`
computation agrees whenever `size + 3 < 2^32`, which holds for every
size the kernel can pass against its 1 MiB heap). -/
def align4 (n : Nat) : Nat := (n + 3) - (n + 3) % 4

/-- First-fit scan of `kmalloc` (`src/memory.c` lines 42-63) over the
block list.  `off` is the byte offset of the current block's header
from `heap_start`.  On success returns the rewritten block list, the
payload offset handed to the caller (`(uint8_t*)current +
sizeof(mem_block_t)`), and the size added to `total_allocated`
(`current->size` after the possible split). -/
def kmallocScan (sz : Nat) : List MemBlock → Nat → Option (List MemBlock × Nat × Nat)
  | [], _ => none
  | b :: rest, off =>
    if b.isFree ∧ sz ≤ b.size then
      -- split when `current->size > size + sizeof(mem_block_t) + 16`
      if b.size > sz + memBlockHeaderSize + 16 then
        some ({ size := sz, isFree := false } ::
              { size := b.size - sz - memBlockHeaderSize, isFree := true } :: rest,
              off + memBlockHeaderSize, sz)
      else
        some ({ size := b.size, isFree := false } :: rest,
              off + memBlockHeaderSize, b.size)
    else
      (kmallocScan sz rest (off + memBlockHeaderSize + b.size)).map
        (fun r => (b :: r.1, r.2.1, r.2.2))

/-- `kmalloc` (`src/memory.c` lines 35-66).  Returns the pointer
(`none` models the C `NULL` sentinel) and the updated heap.  Pointers
are absolute addresses, heap base `KERNEL_HEAP_START`. -/
def kmalloc (h : Heap) (size : Nat) : Option Nat × Heap :=
  if size = 0 then (none, h)
  else
    let sz := align4 size
    match kmallocScan sz h.blocks 0 with
    | none => (none, h)
    | some (l, payload, add) =>
      (some (KERNEL_HEAP_START + payload),
       { h with blocks := l, totalAllocated := h.totalAllocated + add })

/-- Mark the block whose header sits at offset `off` from `heap_start`
as free (`block->is_free = 1` in `src/memory.c` line 72) and report its
size.  `acc` is the offset of the current block's header.  Returns
`none` when no block header lies at that offset — the C code would
perform undefined pointer arithmetic there; the claims only ever free
pointers previously returned by `kmalloc`. -/
def kfreeMark (off : Nat) : List MemBlock → Nat → Option (List MemBlock × Nat)
  | [], _ => none
  | b :: rest, acc =>
    if acc = off then some ({ b with isFree := true } :: rest, b.size)
    else
      (kfreeMark off rest (acc + memBlockHeaderSize + b.size)).map
        (fun r => (b :: r.1, r.2))

/-- Coalescing pass of `kfree` (`src/memory.c` lines 76-84): `current`
is the first argument, the remaining list the second; when `current`
and its successor are both free the successor is absorbed
(`current->size += sizeof(mem_block_t) + current->next->size`) and the
walk stays on `current`, otherwise it advances. -/
def coalesceFrom (a : MemBlock) : List MemBlock → List MemBlock
  | [] => [a]
  | b :: rest =>
    if a.isFree ∧ b.isFree then
      coalesceFrom { size := a.size + memBlockHeaderSize + b.size, isFree := true } rest
    else
      a :: coalesceFrom b rest

/-- The whole coalescing loop, `current` starting at `free_list`. -/
def coalesce : List MemBlock → List MemBlock
  | [] => []
  | a :: rest => coalesceFrom a rest

/-- `kfree` (`src/memory.c` lines 68-85).  `none` models the C `NULL`
pointer, rejected by the `if (!ptr) return;` guard at line 69. -/
def kfree (h : Heap) (ptr : Option Nat) : Heap :=
  match ptr with
  | none => h
  | some p =>
    match kfreeMark (p - KERNEL_HEAP_START - memBlockHeaderSize) h.blocks 0 with
    | none => h
    | some (l, sz) =>
      { h with blocks := coalesce l, totalAllocated := h.totalAllocated - sz }

/-! ## VGA screen driver (`screen.c`, shipped as `src/unnamed/part_010`)

The driver's state is the 80×25 text buffer at 0xB8000 (2000 16-bit
cells), the two C `int` cursor coordinates `cursor_row` / `cursor_col`,
and the current attribute byte.  The coordinates are modelled as `Int`
exactly because they are C `int`s and claim C9 asserts the lower bounds
`0 <= cursor_row`, `0 <= cursor_col` as part of the invariant.  Cells
are the 16-bit values `(current_color << 8) | character`. -/

/-- `MAX_ROWS` (`part_010` line 32). -/
def MAX_ROWS : Nat := 25

/-- `MAX_COLS` (`part_010` line 33). -/
def MAX_COLS : Nat := 80

/-- `DEFAULT_COLOR = WHITE | (BLACK << 4)` (`part_010` line 54). -/
def DEFAULT_COLOR : Nat := 0x0F

/-- Screen driver state: `video_memory` (the 2000-cell text buffer,
modelled as a function from linear cell offset to 16-bit cell value;
the display grid is offsets 0-1999), `cursor_row`, `cursor_col`,
`current_color` (`part_010` lines 71-74). -/
structure Screen where
  vid : Nat → Nat
  row : Int
  col : Int
  color : Nat

/-- `get_offset` (`part_010` lines 86-88): `row * MAX_COLS + col`. -/
def get_offset (row col : Int) : Int := row * 80 + col

/-- Cell value written for character code `c` under attribute `color`:
`(current_color << 8) | c` (`part_010` line 194). -/
def cellOf (color c : Nat) : Nat := color * 256 + c

/-- Write the cell at a linear offset.  The C code stores through
`video_memory[offset]` with an `int` offset; claim C9 is precisely
that the offsets used always lie inside `[0, 2000)` (in C, any other
offset would be an out-of-bounds store; the model's total function
absorbs it, and a negative offset is collapsed by `Int.toNat`). -/
def vidSet (vid : Nat → Nat) (off : Int) (cell : Nat) : Nat → Nat :=
  Function.update vid off.toNat cell

/-- `scroll_up` (`part_010` lines 112-129).  The source copies
`video_memory[i] = video_memory[i + 80]` for `i = 0 .. 1919` in
increasing order (every read is 80 cells ahead of every write, so each
read still sees the pre-loop value) and then blanks cells 1920-1999;
cell `i < 1920` therefore ends as the old cell `i + 80` and cells
1920-1999 end blank.  Afterwards `cursor_row = 24`, `cursor_col = 0`. -/
def scroll_up (s : Screen) : Screen :=
  { s with
    vid := fun i => if i < (MAX_ROWS - 1) * MAX_COLS then s.vid (i + MAX_COLS)
                    else cellOf s.color 0x20
    row := 24
    col := 0 }

/-- `(cursor_col + 8) & ~7` (`part_010` line 185): on a two's-complement
`int`, `x & ~7` is `8 * floor(x / 8)`, i.e. `x - x mod 8` with the
always-non-negative Euclidean remainder `%`. -/
def tabStop (col : Int) : Int := (col + 8) - (col + 8) % 8

/-- The `switch (c)` of `screen_putchar` (`part_010` lines 165-197).
Characters are byte values; 10 = `'\n'`, 13 = `'\r'`, 8 = `'\b'`,
9 = `'\t'`; any other value is written at the current cell and the
column advances. -/
def putcharSwitch (c : Nat) (s : Screen) : Screen :=
  if c = 10 then { s with row := s.row + 1, col := 0 }
  else if c = 13 then { s with col := 0 }
  else if c = 8 then
    if s.col > 0 then
      { s with col := s.col - 1
               vid := vidSet s.vid (get_offset s.row (s.col - 1)) (cellOf s.color 0x20) }
    else s
  else if c = 9 then
    if tabStop s.col ≥ 80 then { s with col := 0, row := s.row + 1 }
    else { s with col := tabStop s.col }
  else
    { s with vid := vidSet s.vid (get_offset s.row s.col) (cellOf s.color c)
             col := s.col + 1 }

/-- The line-wrap check of `screen_putchar` (`part_010` lines
199-203). -/
def putcharWrap (s : Screen) : Screen :=
  if s.col ≥ 80 then { s with col := 0, row := s.row + 1 } else s

/-- The scroll check of `screen_putchar` (`part_010` lines 205-208). -/
def putcharScroll (s : Screen) : Screen :=
  if s.row ≥ 25 then scroll_up s else s

/-- `screen_putchar` (`part_010` lines 161-212): the character switch,
then the wrap check, then the scroll check. -/
def screen_putchar (c : Nat) (s : Screen) : Screen :=
  putcharScroll (putcharWrap (putcharSwitch c s))

/-- `screen_clear` (`part_010` lines 141-155): blank every cell of the
grid, cursor to (0,0). -/
def screen_clear (s : Screen) : Screen :=
  { s with vid := fun _ => cellOf s.color 0x20
           row := 0
           col := 0 }

/-- `screen_write` (`part_010` lines 217-222): emit each character in
order through `screen_putchar`. -/
def screen_write (str : List Nat) (s : Screen) : Screen :=
  str.foldl (fun st c => screen_putchar c st) s

/-- `screen_backspace` (`part_010` lines 280-282). -/
def screen_backspace (s : Screen) : Screen := screen_putchar 8 s

/-- `screen_set_cursor` (`part_010` lines 304-312): each coordinate is
updated only when it lies in range, independently of the other. -/
def screen_set_cursor (row col : Int) (s : Screen) : Screen :=
  let s1 := if 0 ≤ row ∧ row < 25 then { s with row := row } else s
  if 0 ≤ col ∧ col < 80 then { s1 with col := col } else s1

/-- Screen driver state at boot, before any output: cursor (0,0),
default attribute, hardware-backed buffer contents unknown (blank in
the model; the claims all start from `screen_clear`, which overwrites
every cell). -/
def initScreen : Screen :=
  { vid := fun _ => cellOf DEFAULT_COLOR 0x20
    row := 0
    col := 0
    color := DEFAULT_COLOR }

/-- The public mutating entry points of the screen driver that claim C9
quantifies over. -/
inductive ScreenOp where
  | putc : Nat → ScreenOp
  | write : List Nat → ScreenOp
  | backspace : ScreenOp
  | setCursor : Int → Int → ScreenOp

/-- Interpret one driver call. -/
def screenStep (s : Screen) : ScreenOp → Screen
  | .putc c => screen_putchar c s
  | .write str => screen_write str s
  | .backspace => screen_backspace s
  | .setCursor r c => screen_set_cursor r c s

/-- Run a sequence of driver calls. -/
def screenRun (ops : List ScreenOp) (s : Screen) : Screen :=
  ops.foldl screenStep s

/-- The cursor invariant of claim C9. -/
def ScreenInv (s : Screen) : Prop :=
  0 ≤ s.row ∧ s.row ≤ 24 ∧ 0 ≤ s.col ∧ s.col ≤ 79

/-! ## PS/2 keyboard driver (`keyboard.c`, shipped as `src/unnamed/part_012`)

IRQ1 handler, two 58-entry scancode translation tables, a 256-byte
ring buffer with modulo-256 `buffer_start` / `buffer_end` indices, and
a blocking `keyboard_getchar`.  The buffer is modelled as a function
`Nat → Char` (cells 0-255; the driver only ever indexes with values
already reduced modulo 256).  `'\x00'` models the C `char` value 0. -/

/-- `scancode_to_ascii` (`part_012` lines 18-29); 58 entries. -/
def scancode_to_ascii : List Char :=
  ['\x00', '\x00', '1', '2', '3', '4', '5', '6', '7', '8', '9', '0', '-', '=', '\x08',
   '\t', 'q', 'w', 'e', 'r', 't', 'y', 'u', 'i', 'o', 'p', '[', ']', '\n',
   '\x00',
   'a', 's', 'd', 'f', 'g', 'h', 'j', 'k', 'l', ';', '\'', Char.ofNat 96,
   '\x00',
   '\\', 'z', 'x', 'c', 'v', 'b', 'n', 'm', ',', '.', '/',
   '\x00',
   '*',
   '\x00',
   ' ']

/-- `scancode_to_ascii_shift` (`part_012` lines 32-38); 58 entries. -/
def scancode_to_ascii_shift : List Char :=
  ['\x00', '\x00', '!', '@', '#', '$', '%', '^', '&', '*', '(', ')', '_', '+', '\x08',
   '\t', 'Q', 'W', 'E', 'R', 'T', 'Y', 'U', 'I', 'O', 'P', '\x7b', '\x7d', '\n',
   '\x00', 'A', 'S', 'D', 'F', 'G', 'H', 'J', 'K', 'L', ':', '\"', '~',
   '\x00', '|', 'Z', 'X', 'C', 'V', 'B', 'N', 'M', '<', '>', '?', '\x00', '*',
   '\x00', ' ']

/-- Keyboard driver state: `key_buffer[256]`, `buffer_start`,
`buffer_end`, `shift_pressed` (`part_012` lines 40-43). -/
structure KBState where
  keyBuffer : Nat → Char
  bufferStart : Nat
  bufferEnd : Nat
  shiftPressed : Bool

/-- The producer step of the ring buffer
(`key_buffer[buffer_end] = ascii; buffer_end = (buffer_end + 1) % 256;`,
`part_012` lines 72-73). -/
def ringEnq (c : Char) (s : KBState) : KBState :=
  { s with keyBuffer := Function.update s.keyBuffer s.bufferEnd c
           bufferEnd := (s.bufferEnd + 1) % 256 }

/-- The consumer step of `keyboard_getchar` (`part_012` lines 81-90):
`none` models the empty-buffer condition `buffer_start == buffer_end`
under which the C code blocks in its `hlt` loop. -/
def ringDeq (s : KBState) : Option (Char × KBState) :=
  if s.bufferStart = s.bufferEnd then none
  else some (s.keyBuffer s.bufferStart,
             { s with bufferStart := (s.bufferStart + 1) % 256 })

/-- `keyboard_handler` (`part_012` lines 46-75) acting on one scancode
byte read from port 0x60. -/
def keyboard_handler (sc : Nat) (s : KBState) : KBState :=
  if sc = 0x2A ∨ sc = 0x36 then { s with shiftPressed := true }
  else if sc = 0xAA ∨ sc = 0xB6 then { s with shiftPressed := false }
  else if sc &&& 0x80 ≠ 0 then s
  else
    let ascii :=
      if sc < scancode_to_ascii.length then
        if s.shiftPressed then scancode_to_ascii_shift.getD sc '\x00'
        else scancode_to_ascii.getD sc '\x00'
      else '\x00'
    if ascii ≠ '\x00' then ringEnq ascii s else s

/-- Driver state at boot: all statics zero-initialized. -/
def initKB : KBState :=
  { keyBuffer := fun _ => '\x00', bufferStart := 0, bufferEnd := 0, shiftPressed := false }

/-- Process a scancode sequence through the IRQ1 handler. -/
def processScancodes (scs : List Nat) (s : KBState) : KBState :=
  scs.foldl (fun st sc => keyboard_handler sc st) s

/-- Number of unread characters the index pair encodes:
`(buffer_end - buffer_start) mod 256`. -/
def ringCount (s : KBState) : Nat := (s.bufferEnd + 256 - s.bufferStart) % 256

/-- The unread characters, in the order `keyboard_getchar` would
return them: the `ringCount` cells starting at `buffer_start`. -/
def ringUnread (s : KBState) : List Char :=
  (List.range (ringCount s)).map (fun j => s.keyBuffer ((s.bufferStart + j) % 256))

/-- One ring-buffer event: the IRQ1 producer appending a translated
character, or the consumer dequeuing one. -/
inductive RingOp where
  | enq : Char → RingOp
  | deq : RingOp

/-- State after one ring event; a `deq` on an empty buffer leaves the
state unchanged (the C consumer would block). -/
def ringStepState (s : KBState) : RingOp → KBState
  | .enq c => ringEnq c s
  | .deq =>
    match ringDeq s with
    | none => s
    | some r => r.2

/-- Characters the consumer obtains across a sequence of ring events. -/
def ringOutputs (s : KBState) : List RingOp → List Char
  | [] => []
  | op :: t =>
    (match op with
     | .enq _ => ([] : List Char)
     | .deq =>
       match ringDeq s with
       | none => []
       | some r => [r.1]) ++ ringOutputs (ringStepState s op) t

/-- The characters enqueued by a trace, in order. -/
def ringEnqs : List RingOp → List Char
  | [] => []
  | .enq c :: t => c :: ringEnqs t
  | .deq :: t => ringEnqs t

/-- Number of dequeue events in a trace. -/
def ringDeqCount : List RingOp → Nat
  | [] => 0
  | .enq _ :: t => ringDeqCount t
  | .deq :: t => ringDeqCount t + 1

/-- A trace is in-bounds from state `s` when every enqueue happens with
at most 254 unread characters (so the producer never wraps onto the
consumer index) and every dequeue happens on a non-empty buffer. -/
def ringOkTrace (s : KBState) : List RingOp → Bool
  | [] => true
  | op :: t =>
    (match op with
     | .enq _ => ringCount s < 255
     | .deq => s.bufferStart ≠ s.bufferEnd) &&
    ringOkTrace (ringStepState s op) t

/-- Abstraction relation between a ring-buffer state and the logical
queue of unread characters it represents. -/
def RingRepr (s : KBState) (q : List Char) : Prop :=
  s.bufferStart < 256 ∧ s.bufferEnd < 256 ∧ q.length ≤ 255 ∧
  s.bufferEnd = (s.bufferStart + q.length) % 256 ∧
  ∀ j, j < q.length → s.keyBuffer ((s.bufferStart + j) % 256) = q.getD j '\x00'

/-! ## Process manager (`src/process.c`)

`process_create` allocates a 56-byte `process_t` (i386 layout:
`uint32_t id` 4 + `char name[32]` 32 + enum 4 + `esp` 4 + `ebp` 4 +
`uint8_t *stack` 4 + `next` 4) and a `PROCESS_STACK_SIZE` stack from
the heap allocator, assigns ids from the static `next_pid` counter
(initialized to 1), and pushes the block on the head of
`process_queue`.  The word the code stores at the top of the new stack
(the entry address) lives in allocator payload memory, whose byte
contents the heap model does not track; every PCB field is modelled. -/

/-- `process_state_t` (`src/process.c` lines 14-18). -/
inductive ProcState where
  | ready : ProcState
  | running : ProcState
  | terminated : ProcState
deriving DecidableEq, Repr

/-- `PROCESS_STACK_SIZE` (`src/kernel.h` line 67). -/
def PROCESS_STACK_SIZE : Nat := 4096

/-- `sizeof(process_t)` on the i386 freestanding target. -/
def sizeofProcessT : Nat := 56

/-- One `process_t` (`src/process.c` lines 20-28); `next` is
represented by list adjacency in the queue. -/
structure PCB where
  id : Nat
  name : String
  state : ProcState
  esp : Nat
  ebp : Nat
  stack : Nat
deriving DecidableEq, Repr

/-- Process-manager globals (`src/process.c` lines 30-32) together
with the heap they allocate from. -/
structure ProcSys where
  queue : List PCB
  currentProcess : Option Nat
  nextPid : Nat
  heap : Heap

/-- State after `process_init` at boot: empty queue, no current
process, `next_pid` at its static initial value 1, and the given heap. -/
def procBoot (h : Heap) : ProcSys :=
  { queue := [], currentProcess := none, nextPid := 1, heap := h }

/-- `process_create` (`src/process.c` lines 40-74).  `entry` is the
numeric value of the entry-function pointer.  Returns the C `int`
result (the new id, or -1 when either allocation fails) and the new
state.  The name is copied up to 31 characters
(`for (i = 0; i < 31 && name[i]; i++)`). -/
def process_create (entry : Nat) (name : String) (s : ProcSys) : Int × ProcSys :=
  let r1 := kmalloc s.heap sizeofProcessT
  match r1.1 with
  | none => (-1, { s with heap := r1.2 })
  | some _proc =>
    let r2 := kmalloc r1.2 PROCESS_STACK_SIZE
    match r2.1 with
    | none => (-1, { s with heap := kfree r2.2 r1.1 })
    | some stk =>
      let stackTop := stk + PROCESS_STACK_SIZE - 4
      let pcb : PCB :=
        { id := s.nextPid
          name := name.take 31
          state := .ready
          esp := stackTop
          ebp := stackTop
          stack := stk }
      let _ := entry  -- `*stack_top = (uint32_t)entry;` stores into payload memory
      (Int.ofNat s.nextPid,
       { s with queue := pcb :: s.queue, nextPid := s.nextPid + 1, heap := r2.2 })

/-- The digit-accumulation loop of `screen_write_dec` (`part_010`
lines 265-268): divide by 10 until zero, pushing `'0' + n % 10`.  The
first argument is structural-recursion fuel; the loop runs once per
decimal digit, and `decChars` passes fuel `n + 1 ≥` the digit count of
`n`, so the fuel never runs out and the loop semantics are exact. -/
def decGo : Nat → Nat → List Char → List Char
  | 0, _, acc => acc
  | f + 1, n, acc =>
    if n = 0 then acc
    else decGo f (n / 10) (Char.ofNat (48 + n % 10) :: acc)

/-- Character sequence `screen_write_dec n` prints (`part_010` lines
254-274): 0 is special-cased to `"0"`; otherwise the reversed
accumulator is emitted most-significant digit first. -/
def decChars (n : Nat) : List Char :=
  if n = 0 then ['0'] else decGo (n + 1) n []

/-- Fixed-width state label printed by `process_list_processes`
(`src/process.c` lines 97-101). -/
def procStateLabel : ProcState → String
  | .ready => "READY   "
  | .running => "RUNNING "
  | .terminated => "TERM    "

/-- Full transcript of `process_list_processes` (`src/process.c`
lines 88-107): two header lines, then one line per queue element in
list order (most recently created first). -/
def process_list_processes (s : ProcSys) : String :=
  "PID  State    Name\n" ++ "---  -------  ----\n" ++
  String.join (s.queue.map (fun p =>
    String.mk (decChars p.id) ++ "    " ++ procStateLabel p.state ++ p.name ++ "\n"))

/-! ## Theorems -/

/-- C1: For the stage-1 boot loader of either profile, the jump to the
loaded code is executed only if the firmware disk-read reported
success: if the simulated firmware read service sets the carry/error
flag, or clears it but reports a transferred-sector count different
from the requested count (15 for Profile B, 10 for Profile A), the
loader takes the error path and never executes the success jump to the
load address. -/
theorem boot_read_verified_before_jump (p : Profile) (carry : Bool) (al : Nat)
    (h : carry = true ∨ al ≠ requestedSectors p) :
    stage1Outcome p carry al = .errorPath ∧
    stage1Outcome p carry al ≠ .jumpToLoaded := by
  rcases h with h | h <;> simp [stage1Outcome, h]

/-- Witness for C1 at a concrete input: Profile A, carry clear but a
short count of 5 of the requested 10 sectors. -/
theorem boot_read_verified_before_jump_witness :
    ((false = true ∨ (5 : Nat) ≠ requestedSectors .a) ∧
     stage1Outcome .a false 5 = .errorPath ∧
     stage1Outcome .a false 5 ≠ .jumpToLoaded) :=
  ⟨Or.inr (by decide), boot_read_verified_before_jump .a false 5 (Or.inr (by decide))⟩

/-- C2 counterexample: the Profile B stage-1 error path
(`.disk_error` in `src/boot.asm`) is a print followed by a bare
`jmp $` — it neither masks interrupts nor halts the CPU, contradicting
the claim that every stage-1 failure path masks interrupts and halts. -/
theorem boot_failure_halt_counterexample :
    stage1ErrorActions .b = [.printError, .loopForever] ∧
    BootAction.maskInterrupts ∉ stage1ErrorActions .b ∧
    BootAction.haltCpu ∉ stage1ErrorActions .b := by decide

/-- C2 (amended): on every stage-1 failure (carry set or short count)
the loader of either profile takes the error path — never the jump to
the loaded code — prints an error string and ends in an in-place
infinite loop with no retry; Profile A's loader masks interrupts and
halts the CPU before that loop, while Profile B's stage-1 error path
is the bare loop with no `cli`/`hlt`. -/
theorem boot_failure_terminal (p : Profile) (carry : Bool) (al : Nat)
    (h : carry = true ∨ al ≠ requestedSectors p) :
    stage1Outcome p carry al = .errorPath ∧
    stage1Outcome p carry al ≠ .jumpToLoaded ∧
    (stage1ErrorActions p).head? = some .printError ∧
    (stage1ErrorActions p).getLast? = some .loopForever ∧
    (p = .a →
      stage1ErrorActions p = [.printError, .maskInterrupts, .haltCpu, .loopForever]) ∧
    (p = .b → stage1ErrorActions p = [.printError, .loopForever]) := by
  refine ⟨?_, ?_, ?_⟩
  · rcases h with h | h <;> simp [stage1Outcome, h]
  · rcases h with h | h <;> simp [stage1Outcome, h]
  · cases p <;> simp [stage1ErrorActions]

/-- Witness for C2 (amended) at a concrete input: Profile B, carry
flag set. -/
theorem boot_failure_terminal_witness :
    ((true = true ∨ (15 : Nat) ≠ requestedSectors .b) ∧
     stage1Outcome .b true 15 = .errorPath ∧
     stage1Outcome .b true 15 ≠ .jumpToLoaded ∧
     (stage1ErrorActions .b).head? = some .printError ∧
     (stage1ErrorActions .b).getLast? = some .loopForever ∧
     (Profile.b = .a →
       stage1ErrorActions .b = [.printError, .maskInterrupts, .haltCpu, .loopForever]) ∧
     (Profile.b = .b → stage1ErrorActions .b = [.printError, .loopForever])) :=
  ⟨Or.inl rfl, boot_failure_terminal .b true 15 (Or.inl rfl)⟩

/-- C3 counterexample: with the kernel's heap size S = 0x100000 and
the request R = 1048547, the claim's own precondition
R + header + 16 < S holds, yet `kmalloc` performs no split (the split
test needs room for a second header): the returned block's usable size
is 1048564, not R rounded to 1048548, and no second free block exists. -/
theorem kmalloc_split_claim_counterexample :
    1048547 + memBlockHeaderSize + 16 < KERNEL_HEAP_SIZE ∧
    align4 1048547 = 1048548 ∧
    (kmalloc (memory_init KERNEL_HEAP_SIZE) 1048547).1 =
      some (KERNEL_HEAP_START + memBlockHeaderSize) ∧
    (kmalloc (memory_init KERNEL_HEAP_SIZE) 1048547).2.blocks =
      [{ size := 1048564, isFree := false }] ∧
    (1048564 : Nat) ≠ align4 1048547 := by decide

/-- C3 (amended): on a freshly initialized heap of size S, a request R
splits — provided the rounded request leaves room for a second header
plus the 16-byte slack, i.e. align4 R + 2·header + 16 < S — into an
in-use block of usable size exactly align4 R and a second free block
of size S − 2·header − align4 R (the original claim's
`R + header + 16 < S` bound misses the second header consumed by the
split, and its leftover size S − header − R(rounded) likewise
overstates the free remainder by one header). -/
theorem kmalloc_fresh_heap_split (S R : Nat) (hR : 0 < R)
    (h : align4 R + 2 * memBlockHeaderSize + 16 < S) :
    (kmalloc (memory_init S) R).1 = some (KERNEL_HEAP_START + memBlockHeaderSize) ∧
    (kmalloc (memory_init S) R).2.blocks =
      [{ size := align4 R, isFree := false },
       { size := S - 2 * memBlockHeaderSize - align4 R, isFree := true }] ∧
    (kmalloc (memory_init S) R).2.totalAllocated = align4 R := by
  have hR0 : ¬(R = 0) := by omega
  have hfit : align4 R ≤ S - memBlockHeaderSize := by
    unfold memBlockHeaderSize at *; omega
  have hsplit : S - memBlockHeaderSize > align4 R + memBlockHeaderSize + 16 := by
    unfold memBlockHeaderSize at *; omega
  simp only [kmalloc, memory_init, kmallocScan, if_neg hR0]
  rw [if_pos ⟨trivial, hfit⟩]
  rw [if_pos hsplit]
  refine ⟨rfl, ?_, by simp⟩
  simp only [MemBlock.mk.injEq, List.cons.injEq, and_true, true_and]
  unfold memBlockHeaderSize at *
  omega

/-- Witness for C3 (amended): S = 0x100000 (the kernel's
`KERNEL_HEAP_SIZE`), R = 100. -/
theorem kmalloc_fresh_heap_split_witness :
    (kmalloc (memory_init 0x100000) 100).1 =
      some (KERNEL_HEAP_START + memBlockHeaderSize) ∧
    (kmalloc (memory_init 0x100000) 100).2.blocks =
      [{ size := align4 100, isFree := false },
       { size := 0x100000 - 2 * memBlockHeaderSize - align4 100, isFree := true }] ∧
    (kmalloc (memory_init 0x100000) 100).2.totalAllocated = align4 100 :=
  kmalloc_fresh_heap_split 0x100000 100 (by decide) (by decide)

set_option maxRecDepth 100000 in
/-- C4 counterexample: on the real 1 MiB heap, allocate three
100-byte blocks, free the first and second (they coalesce into a
212-byte free block), then request 216 bytes — larger than the full
combined freed region of 2·100 + 12 = 212.  The claim says this
returns the null sentinel; in fact the first-fit scan walks past the
merged block and serves the request from the heap's large free tail,
returning the non-null pointer 0x100000 + 348. -/
theorem kfree_coalesce_claim_counterexample :
    (let h0 := memory_init KERNEL_HEAP_SIZE
     let r1 := kmalloc h0 100
     let r2 := kmalloc r1.2 100
     let r3 := kmalloc r2.2 100
     let h5 := kfree (kfree r3.2 r1.1) r2.1
     r1.1 = some (KERNEL_HEAP_START + 12) ∧
     r2.1 = some (KERNEL_HEAP_START + 124) ∧
     r3.1 = some (KERNEL_HEAP_START + 236) ∧
     h5.blocks = [{ size := 212, isFree := true },
                  { size := 100, isFree := false },
                  { size := 1048228, isFree := true }] ∧
     216 > 2 * 100 + memBlockHeaderSize ∧
     (kmalloc h5 216).1 = some (KERNEL_HEAP_START + 348)) := by decide

/-- `align4` is the identity on sizes already 4-byte aligned. -/
lemma align4_eq_self {n : Nat} (h : n % 4 = 0) : align4 n = n := by
  unfold align4; omega

/-- First-fit scan, head block fits and is split. -/
lemma kmallocScan_hit_split (sz : Nat) (b : MemBlock) (rest : List MemBlock) (off : Nat)
    (hfree : b.isFree = true) (hfit : sz ≤ b.size)
    (hs : b.size > sz + memBlockHeaderSize + 16) :
    kmallocScan sz (b :: rest) off =
      some ({ size := sz, isFree := false } ::
            { size := b.size - sz - memBlockHeaderSize, isFree := true } :: rest,
            off + memBlockHeaderSize, sz) := by
  simp only [kmallocScan]
  rw [if_pos ⟨hfree, hfit⟩, if_pos hs]

/-- First-fit scan, head block fits but the remainder is too small to
split: the whole block is handed out. -/
lemma kmallocScan_hit_exact (sz : Nat) (b : MemBlock) (rest : List MemBlock) (off : Nat)
    (hfree : b.isFree = true) (hfit : sz ≤ b.size)
    (hs : ¬(b.size > sz + memBlockHeaderSize + 16)) :
    kmallocScan sz (b :: rest) off =
      some ({ size := b.size, isFree := false } :: rest,
            off + memBlockHeaderSize, b.size) := by
  simp only [kmallocScan]
  rw [if_pos ⟨hfree, hfit⟩, if_neg hs]

/-- First-fit scan, head block in use or too small: the scan moves on. -/
lemma kmallocScan_miss (sz : Nat) (b : MemBlock) (rest : List MemBlock) (off : Nat)
    (hm : ¬(b.isFree = true ∧ sz ≤ b.size)) :
    kmallocScan sz (b :: rest) off =
      (kmallocScan sz rest (off + memBlockHeaderSize + b.size)).map
        (fun r => (b :: r.1, r.2.1, r.2.2)) := by
  simp only [kmallocScan]
  rw [if_neg hm]

/-- The first-fit scan fails exactly when no free block is large
enough for the (already rounded) request. -/
lemma kmallocScan_none_iff (sz : Nat) :
    ∀ (l : List MemBlock) (off : Nat),
      kmallocScan sz l off = none ↔ ∀ b ∈ l, b.isFree = true → b.size < sz := by
  intro l
  induction l with
  | nil => intro off; simp [kmallocScan]
  | cons b rest ih =>
    intro off
    by_cases hb : b.isFree = true ∧ sz ≤ b.size
    · constructor
      · intro hnone
        exfalso
        by_cases hs : b.size > sz + memBlockHeaderSize + 16
        · rw [kmallocScan_hit_split sz b rest off hb.1 hb.2 hs] at hnone
          exact Option.noConfusion hnone
        · rw [kmallocScan_hit_exact sz b rest off hb.1 hb.2 hs] at hnone
          exact Option.noConfusion hnone
      · intro hall
        exact absurd (hall b (List.mem_cons_self b rest) hb.1) (by omega)
    · rw [kmallocScan_miss sz b rest off hb]
      constructor
      · intro hnone b' hb' hfree'
        rcases List.mem_cons.mp hb' with rfl | hmem
        · push_neg at hb
          exact hb hfree'
        · rcases hmap : kmallocScan sz rest (off + memBlockHeaderSize + b.size) with _ | r
          · exact (ih _).mp hmap b' hmem hfree'
          · rw [hmap] at hnone; exact Option.noConfusion hnone
      · intro hall
        have : kmallocScan sz rest (off + memBlockHeaderSize + b.size) = none :=
          (ih _).mpr fun b' hmem hfree' => hall b' (List.mem_cons_of_mem _ hmem) hfree'
        rw [this]; rfl

/-- `kmalloc` returns the null sentinel exactly when no free block of
the heap can hold the rounded request. -/
lemma kmalloc_none_iff (h : Heap) (Q : Nat) (hQ : Q ≠ 0) :
    (kmalloc h Q).1 = none ↔ ∀ b ∈ h.blocks, b.isFree = true → b.size < align4 Q := by
  simp only [kmalloc, if_neg hQ]
  rcases hscan : kmallocScan (align4 Q) h.blocks 0 with _ | r
  · dsimp only
    exact ⟨fun _ => (kmallocScan_none_iff _ _ _).mp hscan, fun _ => rfl⟩
  · rcases r with ⟨l, p, a⟩
    dsimp only
    constructor
    · intro hcontra; exact Option.noConfusion hcontra
    · intro hall
      exfalso
      have hnone := (kmallocScan_none_iff (align4 Q) h.blocks 0).mpr hall
      rw [hscan] at hnone
      exact Option.noConfusion hnone

/-- Every pointer the scan hands out sits at least one header past the
offset where the scan started. -/
lemma kmallocScan_payload_lb (sz : Nat) :
    ∀ (l : List MemBlock) (off : Nat) (r : List MemBlock × Nat × Nat),
      kmallocScan sz l off = some r → off + memBlockHeaderSize ≤ r.2.1 := by
  intro l
  induction l with
  | nil => intro off r hr; exact Option.noConfusion hr
  | cons b rest ih =>
    intro off r hr
    by_cases hb : b.isFree = true ∧ sz ≤ b.size
    · by_cases hs : b.size > sz + memBlockHeaderSize + 16
      · rw [kmallocScan_hit_split sz b rest off hb.1 hb.2 hs] at hr
        injection hr with hh
        subst hh
        exact Nat.le_refl _
      · rw [kmallocScan_hit_exact sz b rest off hb.1 hb.2 hs] at hr
        injection hr with hh
        subst hh
        exact Nat.le_refl _
    · rw [kmallocScan_miss sz b rest off hb] at hr
      rcases hmap : kmallocScan sz rest (off + memBlockHeaderSize + b.size) with _ | r'
      · rw [hmap] at hr; exact Option.noConfusion hr
      · rw [hmap] at hr
        injection hr with hh
        subst hh
        have := ih (off + memBlockHeaderSize + b.size) r' hmap
        dsimp only
        omega

/-- `kfree`'s header search, hit: the current block's header offset is
the sought one. -/
lemma kfreeMark_here (off acc : Nat) (b : MemBlock) (rest : List MemBlock)
    (h : acc = off) :
    kfreeMark off (b :: rest) acc = some ({ b with isFree := true } :: rest, b.size) := by
  simp only [kfreeMark]
  rw [if_pos h]

/-- `kfree`'s header search, miss: move to the next block. -/
lemma kfreeMark_skip (off acc : Nat) (b : MemBlock) (rest : List MemBlock)
    (h : acc ≠ off) :
    kfreeMark off (b :: rest) acc =
      (kfreeMark off rest (acc + memBlockHeaderSize + b.size)).map
        (fun r => (b :: r.1, r.2)) := by
  simp only [kfreeMark]
  rw [if_neg h]

/-- Unfolding equation for `kfree` on a non-null pointer. -/
lemma kfree_some (h : Heap) (p : Nat) :
    kfree h (some p) =
      match kfreeMark (p - KERNEL_HEAP_START - memBlockHeaderSize) h.blocks 0 with
      | none => h
      | some (l, s) =>
        { h with blocks := coalesce l, totalAllocated := h.totalAllocated - s } := rfl

/-- When the heap's first block is free and large enough, `kmalloc`
returns its payload address (first fit stops at the head). -/
lemma kmalloc_head_fit (h : Heap) (Q : Nat) (b : MemBlock) (rest : List MemBlock)
    (hb : h.blocks = b :: rest) (hfree : b.isFree = true) (hQ : Q ≠ 0)
    (hfit : align4 Q ≤ b.size) :
    (kmalloc h Q).1 = some (KERNEL_HEAP_START + memBlockHeaderSize) := by
  simp only [kmalloc, if_neg hQ, hb]
  by_cases hs : b.size > align4 Q + memBlockHeaderSize + 16
  · rw [kmallocScan_hit_split (align4 Q) b rest 0 hfree hfit hs]
    dsimp only
    rw [Nat.zero_add]
  · rw [kmallocScan_hit_exact (align4 Q) b rest 0 hfree hfit hs]
    dsimp only
    rw [Nat.zero_add]

/-- A request whose rounded size exceeds the free head block's size is
never served from that head block: it returns the null sentinel if and
only if no other free block fits, and it never returns the head
block's payload address. -/
lemma kmalloc_oversize_head (rest : List MemBlock) (total hs m Q : Nat)
    (hQ0 : Q ≠ 0) (hQ : m < align4 Q) :
    ((kmalloc { blocks := { size := m, isFree := true } :: rest,
                totalAllocated := total, heapSize := hs } Q).1 = none ↔
      ∀ b ∈ ({ size := m, isFree := true } :: rest : List MemBlock),
        b.isFree = true → b.size < align4 Q) ∧
    (kmalloc { blocks := { size := m, isFree := true } :: rest,
               totalAllocated := total, heapSize := hs } Q).1 ≠
      some (KERNEL_HEAP_START + memBlockHeaderSize) := by
  constructor
  · exact kmalloc_none_iff _ Q hQ0
  · intro hcontra
    simp only [kmalloc, if_neg hQ0] at hcontra
    have hmiss : ¬((MemBlock.mk m true).isFree = true ∧ align4 Q ≤ (MemBlock.mk m true).size) := by
      simp only [not_and]
      intro _
      omega
    rcases hscan : kmallocScan (align4 Q)
        ({ size := m, isFree := true } :: rest : List MemBlock) 0 with _ | r
    · rw [hscan] at hcontra
      exact Option.noConfusion hcontra
    · rw [hscan] at hcontra
      rcases r with ⟨l, p, a⟩
      dsimp only at hcontra
      have hp : p = memBlockHeaderSize := by
        have := Option.some.inj hcontra
        unfold KERNEL_HEAP_START memBlockHeaderSize at *
        omega
      rw [kmallocScan_miss (align4 Q) _ rest 0 hmiss] at hscan
      rcases hmap : kmallocScan (align4 Q) rest (0 + memBlockHeaderSize + m) with _ | r'
      · rw [hmap] at hscan; exact Option.noConfusion hscan
      · rw [hmap] at hscan
        injection hscan with hh
        have hlb := kmallocScan_payload_lb (align4 Q) rest _ r' hmap
        have hp' : p = r'.2.1 := by
          have := congrArg (fun t => t.2.1) hh
          simpa using this.symm
        unfold memBlockHeaderSize at *
        omega

set_option maxRecDepth 100000 in
/-- C4 (amended): starting from a freshly initialized heap, after
allocating three same-sized blocks via `kmalloc` and freeing the first
and the second of them via `kfree` — in either order; both orders
yield the same heap — the two freed blocks coalesce into a single free
region of size 2·size + header at the head of the free list.  A
subsequent `kmalloc` of a size larger than either freed block
individually but not larger than their combined freed size succeeds
using the merged region (it returns the merged region's payload
address).  A `kmalloc` whose rounded size is larger than the full
combined freed region (2·size + header) is never satisfied from the
merged region: it returns the null sentinel if and only if no other
free block of the heap — such as the residual free tail the three
allocations may have left — is large enough for it.  (The original
claim's unconditional null sentinel fails on the real 1 MiB heap,
where the free tail serves the over-sized request.)  Stated for every
heap size S and every 4-byte-aligned block size `sz` for which the
three-allocation scenario goes through (each of the first two
allocations splits, and the third succeeds). -/
theorem kfree_coalesce_merged_alloc (S sz : Nat)
    (hal : sz % 4 = 0) (hpos : 0 < sz)
    (h2 : 2 * sz + 52 < S) (h3 : 3 * sz + 36 ≤ S) :
    (let h0 := memory_init S
     let r1 := kmalloc h0 sz
     let r2 := kmalloc r1.2 sz
     let r3 := kmalloc r2.2 sz
     let hAB := kfree (kfree r3.2 r1.1) r2.1
     let hBA := kfree (kfree r3.2 r2.1) r1.1
     r1.1 = some (KERNEL_HEAP_START + memBlockHeaderSize) ∧
     r2.1 = some (KERNEL_HEAP_START + (2 * memBlockHeaderSize + sz)) ∧
     r3.1 = some (KERNEL_HEAP_START + (3 * memBlockHeaderSize + 2 * sz)) ∧
     hBA = hAB ∧
     hAB.blocks.head? = some { size := 2 * sz + memBlockHeaderSize, isFree := true } ∧
     (∀ Q, sz < Q → Q ≤ 2 * sz →
        (kmalloc hAB Q).1 = some (KERNEL_HEAP_START + memBlockHeaderSize)) ∧
     (∀ Q, 2 * sz + memBlockHeaderSize < align4 Q →
        (((kmalloc hAB Q).1 = none ↔
           ∀ b ∈ hAB.blocks, b.isFree = true → b.size < align4 Q) ∧
         (kmalloc hAB Q).1 ≠ some (KERNEL_HEAP_START + memBlockHeaderSize)))) := by
  have hsz4 : 4 ≤ sz := by omega
  have hsz0 : sz ≠ 0 := by omega
  have hszal : align4 sz = sz := align4_eq_self hal
  -- first allocation: splits the single fresh block
  have e1 : kmalloc (memory_init S) sz =
      (some (KERNEL_HEAP_START + memBlockHeaderSize),
       { blocks := [{ size := sz, isFree := false },
                    { size := S - 2 * memBlockHeaderSize - sz, isFree := true }],
         totalAllocated := sz, heapSize := S }) := by
    simp only [kmalloc, if_neg hsz0, hszal, memory_init]
    rw [kmallocScan_hit_split sz _ _ 0 rfl (by simp only [memBlockHeaderSize]; try omega)
        (by simp only [memBlockHeaderSize]; try omega)]
    simp only [Prod.mk.injEq, Option.some.injEq, Heap.mk.injEq, List.cons.injEq,
               MemBlock.mk.injEq, and_true, true_and]
    omega
  -- second allocation: skips the first block, splits the tail
  have e2 : kmalloc
      { blocks := [{ size := sz, isFree := false },
                   { size := S - 2 * memBlockHeaderSize - sz, isFree := true }],
        totalAllocated := sz, heapSize := S } sz =
      (some (KERNEL_HEAP_START + (2 * memBlockHeaderSize + sz)),
       { blocks := [{ size := sz, isFree := false },
                    { size := sz, isFree := false },
                    { size := S - 3 * memBlockHeaderSize - 2 * sz, isFree := true }],
         totalAllocated := sz + sz, heapSize := S }) := by
    simp only [kmalloc, if_neg hsz0, hszal]
    rw [kmallocScan_miss sz _ _ 0 (by simp)]
    rw [kmallocScan_hit_split sz _ _ (0 + memBlockHeaderSize + sz) rfl
        (by simp only [memBlockHeaderSize]; try omega)
        (by simp only [memBlockHeaderSize]; try omega)]
    simp only [Option.map_some']
    simp only [Prod.mk.injEq, Option.some.injEq, Heap.mk.injEq, List.cons.injEq,
               MemBlock.mk.injEq, and_true, true_and]
    omega
  dsimp only
  rw [e1]
  dsimp only
  rw [e2]
  dsimp only
  -- third allocation: splits the tail when it is big enough, else
  -- takes the whole remainder
  rcases Nat.lt_or_ge (3 * sz + 64) S with hbig | hsmall
  · -- the residual tail stays free after the third allocation
    have e3 : kmalloc
        { blocks := [{ size := sz, isFree := false },
                     { size := sz, isFree := false },
                     { size := S - 3 * memBlockHeaderSize - 2 * sz, isFree := true }],
          totalAllocated := sz + sz, heapSize := S } sz =
        (some (KERNEL_HEAP_START + (3 * memBlockHeaderSize + 2 * sz)),
         { blocks := [{ size := sz, isFree := false },
                      { size := sz, isFree := false },
                      { size := sz, isFree := false },
                      { size := S - 4 * memBlockHeaderSize - 3 * sz, isFree := true }],
           totalAllocated := sz + sz + sz, heapSize := S }) := by
      simp only [kmalloc, if_neg hsz0, hszal]
      rw [kmallocScan_miss sz _ _ 0 (by simp)]
      rw [kmallocScan_miss sz _ _ (0 + memBlockHeaderSize + sz) (by simp)]
      rw [kmallocScan_hit_split sz _ _ (0 + memBlockHeaderSize + sz + memBlockHeaderSize + sz)
          rfl (by simp only [memBlockHeaderSize]; try omega)
          (by simp only [memBlockHeaderSize]; try omega)]
      simp only [Option.map_some']
      simp only [Prod.mk.injEq, Option.some.injEq, Heap.mk.injEq, List.cons.injEq,
                 MemBlock.mk.injEq, and_true, true_and]
      omega
    have f1 : kfree
        { blocks := [{ size := sz, isFree := false },
                     { size := sz, isFree := false },
                     { size := sz, isFree := false },
                     { size := S - 4 * memBlockHeaderSize - 3 * sz, isFree := true }],
          totalAllocated := sz + sz + sz, heapSize := S }
        (some (KERNEL_HEAP_START + memBlockHeaderSize)) =
        { blocks := [{ size := sz, isFree := true },
                     { size := sz, isFree := false },
                     { size := sz, isFree := false },
                     { size := S - 4 * memBlockHeaderSize - 3 * sz, isFree := true }],
          totalAllocated := sz + sz, heapSize := S } := by
      rw [kfree_some]
      rw [show KERNEL_HEAP_START + memBlockHeaderSize - KERNEL_HEAP_START -
            memBlockHeaderSize = 0 from by decide]
      rw [kfreeMark_here 0 0 _ _ rfl]
      simp [coalesce, coalesceFrom, Heap.mk.injEq, List.cons.injEq, MemBlock.mk.injEq]
      try omega
    have f2 : kfree
        { blocks := [{ size := sz, isFree := true },
                     { size := sz, isFree := false },
                     { size := sz, isFree := false },
                     { size := S - 4 * memBlockHeaderSize - 3 * sz, isFree := true }],
          totalAllocated := sz + sz, heapSize := S }
        (some (KERNEL_HEAP_START + (2 * memBlockHeaderSize + sz))) =
        { blocks := [{ size := 2 * sz + memBlockHeaderSize, isFree := true },
                     { size := sz, isFree := false },
                     { size := S - 4 * memBlockHeaderSize - 3 * sz, isFree := true }],
          totalAllocated := sz, heapSize := S } := by
      rw [kfree_some]
      rw [show KERNEL_HEAP_START + (2 * memBlockHeaderSize + sz) - KERNEL_HEAP_START -
            memBlockHeaderSize = memBlockHeaderSize + sz from
          by unfold KERNEL_HEAP_START memBlockHeaderSize; omega]
      rw [kfreeMark_skip _ 0 _ _ (by unfold memBlockHeaderSize; omega)]
      rw [kfreeMark_here _ _ _ _ (by simp only [memBlockHeaderSize]; try omega)]
      simp only [Option.map_some']
      simp [coalesce, coalesceFrom, Heap.mk.injEq, List.cons.injEq, MemBlock.mk.injEq]
      try omega
    have g1 : kfree
        { blocks := [{ size := sz, isFree := false },
                     { size := sz, isFree := false },
                     { size := sz, isFree := false },
                     { size := S - 4 * memBlockHeaderSize - 3 * sz, isFree := true }],
          totalAllocated := sz + sz + sz, heapSize := S }
        (some (KERNEL_HEAP_START + (2 * memBlockHeaderSize + sz))) =
        { blocks := [{ size := sz, isFree := false },
                     { size := sz, isFree := true },
                     { size := sz, isFree := false },
                     { size := S - 4 * memBlockHeaderSize - 3 * sz, isFree := true }],
          totalAllocated := sz + sz, heapSize := S } := by
      rw [kfree_some]
      rw [show KERNEL_HEAP_START + (2 * memBlockHeaderSize + sz) - KERNEL_HEAP_START -
            memBlockHeaderSize = memBlockHeaderSize + sz from
          by unfold KERNEL_HEAP_START memBlockHeaderSize; omega]
      rw [kfreeMark_skip _ 0 _ _ (by unfold memBlockHeaderSize; omega)]
      rw [kfreeMark_here _ _ _ _ (by simp only [memBlockHeaderSize]; try omega)]
      simp only [Option.map_some']
      simp [coalesce, coalesceFrom, Heap.mk.injEq, List.cons.injEq, MemBlock.mk.injEq]
      try omega
    have g2 : kfree
        { blocks := [{ size := sz, isFree := false },
                     { size := sz, isFree := true },
                     { size := sz, isFree := false },
                     { size := S - 4 * memBlockHeaderSize - 3 * sz, isFree := true }],
          totalAllocated := sz + sz, heapSize := S }
        (some (KERNEL_HEAP_START + memBlockHeaderSize)) =
        { blocks := [{ size := 2 * sz + memBlockHeaderSize, isFree := true },
                     { size := sz, isFree := false },
                     { size := S - 4 * memBlockHeaderSize - 3 * sz, isFree := true }],
          totalAllocated := sz, heapSize := S } := by
      rw [kfree_some]
      rw [show KERNEL_HEAP_START + memBlockHeaderSize - KERNEL_HEAP_START -
            memBlockHeaderSize = 0 from by decide]
      rw [kfreeMark_here 0 0 _ _ rfl]
      simp [coalesce, coalesceFrom, Heap.mk.injEq, List.cons.injEq, MemBlock.mk.injEq]
      try omega
    rw [e3]
    dsimp only
    rw [f1, f2, g1, g2]
    refine ⟨rfl, rfl, rfl, rfl, rfl, ?_, ?_⟩
    · intro Q hq1 hq2
      exact kmalloc_head_fit _ Q _ _ rfl rfl (by omega)
        (by simp only [align4, memBlockHeaderSize]; omega)
    · intro Q hQ
      exact kmalloc_oversize_head _ _ _ _ Q
        (by simp only [align4, memBlockHeaderSize] at hQ ⊢; omega) hQ
  · -- the third allocation consumes the whole remainder (no split)
    have e3 : kmalloc
        { blocks := [{ size := sz, isFree := false },
                     { size := sz, isFree := false },
                     { size := S - 3 * memBlockHeaderSize - 2 * sz, isFree := true }],
          totalAllocated := sz + sz, heapSize := S } sz =
        (some (KERNEL_HEAP_START + (3 * memBlockHeaderSize + 2 * sz)),
         { blocks := [{ size := sz, isFree := false },
                      { size := sz, isFree := false },
                      { size := S - 3 * memBlockHeaderSize - 2 * sz, isFree := false }],
           totalAllocated := sz + sz + (S - 3 * memBlockHeaderSize - 2 * sz),
           heapSize := S }) := by
      simp only [kmalloc, if_neg hsz0, hszal]
      rw [kmallocScan_miss sz _ _ 0 (by simp)]
      rw [kmallocScan_miss sz _ _ (0 + memBlockHeaderSize + sz) (by simp)]
      rw [kmallocScan_hit_exact sz _ _ (0 + memBlockHeaderSize + sz + memBlockHeaderSize + sz)
          rfl (by simp only [memBlockHeaderSize]; try omega)
          (by simp only [memBlockHeaderSize]; try omega)]
      simp only [Option.map_some']
      simp only [Prod.mk.injEq, Option.some.injEq, Heap.mk.injEq, List.cons.injEq,
                 MemBlock.mk.injEq, and_true, true_and]
      omega
    have f1 : kfree
        { blocks := [{ size := sz, isFree := false },
                     { size := sz, isFree := false },
                     { size := S - 3 * memBlockHeaderSize - 2 * sz, isFree := false }],
          totalAllocated := sz + sz + (S - 3 * memBlockHeaderSize - 2 * sz),
          heapSize := S }
        (some (KERNEL_HEAP_START + memBlockHeaderSize)) =
        { blocks := [{ size := sz, isFree := true },
                     { size := sz, isFree := false },
                     { size := S - 3 * memBlockHeaderSize - 2 * sz, isFree := false }],
          totalAllocated := sz + (S - 3 * memBlockHeaderSize - 2 * sz),
          heapSize := S } := by
      rw [kfree_some]
      rw [show KERNEL_HEAP_START + memBlockHeaderSize - KERNEL_HEAP_START -
            memBlockHeaderSize = 0 from by decide]
      rw [kfreeMark_here 0 0 _ _ rfl]
      simp [coalesce, coalesceFrom, Heap.mk.injEq, List.cons.injEq, MemBlock.mk.injEq]
      try omega
    have f2 : kfree
        { blocks := [{ size := sz, isFree := true },
                     { size := sz, isFree := false },
                     { size := S - 3 * memBlockHeaderSize - 2 * sz, isFree := false }],
          totalAllocated := sz + (S - 3 * memBlockHeaderSize - 2 * sz), heapSize := S }
        (some (KERNEL_HEAP_START + (2 * memBlockHeaderSize + sz))) =
        { blocks := [{ size := 2 * sz + memBlockHeaderSize, isFree := true },
                     { size := S - 3 * memBlockHeaderSize - 2 * sz, isFree := false }],
          totalAllocated := S - 3 * memBlockHeaderSize - 2 * sz, heapSize := S } := by
      rw [kfree_some]
      rw [show KERNEL_HEAP_START + (2 * memBlockHeaderSize + sz) - KERNEL_HEAP_START -
            memBlockHeaderSize = memBlockHeaderSize + sz from
          by unfold KERNEL_HEAP_START memBlockHeaderSize; omega]
      rw [kfreeMark_skip _ 0 _ _ (by unfold memBlockHeaderSize; omega)]
      rw [kfreeMark_here _ _ _ _ (by simp only [memBlockHeaderSize]; try omega)]
      simp only [Option.map_some']
      simp [coalesce, coalesceFrom, Heap.mk.injEq, List.cons.injEq, MemBlock.mk.injEq]
      try omega
    have g1 : kfree
        { blocks := [{ size := sz, isFree := false },
                     { size := sz, isFree := false },
                     { size := S - 3 * memBlockHeaderSize - 2 * sz, isFree := false }],
          totalAllocated := sz + sz + (S - 3 * memBlockHeaderSize - 2 * sz),
          heapSize := S }
        (some (KERNEL_HEAP_START + (2 * memBlockHeaderSize + sz))) =
        { blocks := [{ size := sz, isFree := false },
                     { size := sz, isFree := true },
                     { size := S - 3 * memBlockHeaderSize - 2 * sz, isFree := false }],
          totalAllocated := sz + (S - 3 * memBlockHeaderSize - 2 * sz),
          heapSize := S } := by
      rw [kfree_some]
      rw [show KERNEL_HEAP_START + (2 * memBlockHeaderSize + sz) - KERNEL_HEAP_START -
            memBlockHeaderSize = memBlockHeaderSize + sz from
          by unfold KERNEL_HEAP_START memBlockHeaderSize; omega]
      rw [kfreeMark_skip _ 0 _ _ (by unfold memBlockHeaderSize; omega)]
      rw [kfreeMark_here _ _ _ _ (by simp only [memBlockHeaderSize]; try omega)]
      simp only [Option.map_some']
      simp [coalesce, coalesceFrom, Heap.mk.injEq, List.cons.injEq, MemBlock.mk.injEq]
      try omega
    have g2 : kfree
        { blocks := [{ size := sz, isFree := false },
                     { size := sz, isFree := true },
                     { size := S - 3 * memBlockHeaderSize - 2 * sz, isFree := false }],
          totalAllocated := sz + (S - 3 * memBlockHeaderSize - 2 * sz), heapSize := S }
        (some (KERNEL_HEAP_START + memBlockHeaderSize)) =
        { blocks := [{ size := 2 * sz + memBlockHeaderSize, isFree := true },
                     { size := S - 3 * memBlockHeaderSize - 2 * sz, isFree := false }],
          totalAllocated := S - 3 * memBlockHeaderSize - 2 * sz, heapSize := S } := by
      rw [kfree_some]
      rw [show KERNEL_HEAP_START + memBlockHeaderSize - KERNEL_HEAP_START -
            memBlockHeaderSize = 0 from by decide]
      rw [kfreeMark_here 0 0 _ _ rfl]
      simp [coalesce, coalesceFrom, Heap.mk.injEq, List.cons.injEq, MemBlock.mk.injEq]
      try omega
    rw [e3]
    dsimp only
    rw [f1, f2, g1, g2]
    refine ⟨rfl, rfl, rfl, rfl, rfl, ?_, ?_⟩
    · intro Q hq1 hq2
      exact kmalloc_head_fit _ Q _ _ rfl rfl (by omega)
        (by simp only [align4, memBlockHeaderSize]; omega)
    · intro Q hQ
      exact kmalloc_oversize_head _ _ _ _ Q
        (by simp only [align4, memBlockHeaderSize] at hQ ⊢; omega) hQ

/-- Witness for C4 (amended) at S = 336, sz = 100: the instance in
which the three allocations consume the whole heap. -/
theorem kfree_coalesce_merged_alloc_witness :
    (100 % 4 = 0 ∧ 0 < 100 ∧ 2 * 100 + 52 < 336 ∧ 3 * 100 + 36 ≤ 336) ∧
    (let h0 := memory_init 336
     let r1 := kmalloc h0 100
     let r2 := kmalloc r1.2 100
     let r3 := kmalloc r2.2 100
     let hAB := kfree (kfree r3.2 r1.1) r2.1
     let hBA := kfree (kfree r3.2 r2.1) r1.1
     r1.1 = some (KERNEL_HEAP_START + memBlockHeaderSize) ∧
     r2.1 = some (KERNEL_HEAP_START + (2 * memBlockHeaderSize + 100)) ∧
     r3.1 = some (KERNEL_HEAP_START + (3 * memBlockHeaderSize + 2 * 100)) ∧
     hBA = hAB ∧
     hAB.blocks.head? = some { size := 2 * 100 + memBlockHeaderSize, isFree := true } ∧
     (∀ Q, 100 < Q → Q ≤ 2 * 100 →
        (kmalloc hAB Q).1 = some (KERNEL_HEAP_START + memBlockHeaderSize)) ∧
     (∀ Q, 2 * 100 + memBlockHeaderSize < align4 Q →
        (((kmalloc hAB Q).1 = none ↔
           ∀ b ∈ hAB.blocks, b.isFree = true → b.size < align4 Q) ∧
         (kmalloc hAB Q).1 ≠ some (KERNEL_HEAP_START + memBlockHeaderSize)))) :=
  ⟨by decide,
   kfree_coalesce_merged_alloc 336 100 (by decide) (by decide) (by decide) (by decide)⟩

set_option maxRecDepth 100000 in
/-- C5: starting from a freshly cleared screen, 81 printable
characters with no newline leave the cursor at row 1, column 1, with
the 81st character wrapped onto the second row (cell 80); and writing
a character followed by 25 newlines scrolls so that the top-left cell
loses its original character (it held 'A', it is blank after the
scroll) while the bottom row is entirely blank immediately after the
scroll, with the cursor on row 24. -/
theorem screen_wrap_and_scroll :
    (let s := screenRun (List.replicate 81 (ScreenOp.putc 88)) (screen_clear initScreen)
     s.row = 1 ∧ s.col = 1 ∧ s.vid 80 = cellOf DEFAULT_COLOR 88) ∧
    (let s0 := screen_putchar 65 (screen_clear initScreen)
     let s1 := screenRun (List.replicate 25 (ScreenOp.putc 10)) s0
     s0.vid 0 = cellOf DEFAULT_COLOR 65 ∧
     s1.vid 0 = cellOf DEFAULT_COLOR 0x20 ∧
     ((List.range 80).map fun k => s1.vid (1920 + k)) =
       List.replicate 80 (cellOf DEFAULT_COLOR 0x20) ∧
     s1.row = 24 ∧ s1.col = 0) := by decide

/-- C6: from shift clear and an empty ring buffer, the Profile B
keyboard handler maps the scancode sequence
[0x2A shift-press, 0x1E 'a'-press, 0xAA shift-release] to exactly the
single buffered character 'A', and leaves the shift flag clear. -/
theorem keyboard_shift_sequence :
    ringUnread (processScancodes [0x2A, 0x1E, 0xAA] initKB) = ['A'] ∧
    ringCount (processScancodes [0x2A, 0x1E, 0xAA] initKB) = 1 ∧
    (processScancodes [0x2A, 0x1E, 0xAA] initKB).shiftPressed = false := by decide

set_option maxRecDepth 100000 in
/-- C8: from a freshly initialized process manager over the kernel's
1 MiB heap, creating processes named "a", "b", "c" in that order
returns ids 1, 2, 3, and `process_list_processes` then enumerates them
most-recently-created first: "c", "b", "a". -/
theorem process_ids_and_listing_order :
    (let s0 := procBoot (memory_init KERNEL_HEAP_SIZE)
     let r1 := process_create 0 "a" s0
     let r2 := process_create 0 "b" r1.2
     let r3 := process_create 0 "c" r2.2
     r1.1 = 1 ∧ r2.1 = 2 ∧ r3.1 = 3 ∧
     r3.2.queue.map (fun p => p.id) = [3, 2, 1] ∧
     r3.2.queue.map (fun p => p.name) = ["c", "b", "a"] ∧
     process_list_processes r3.2 =
       "PID  State    Name\n---  -------  ----\n" ++
       "3    READY   c\n2    READY   b\n1    READY   a\n") := by decide

/-- C10: `kfree` on the null pointer is a no-op on any heap state: the
block list and the allocated-byte counter are unchanged. -/
theorem kfree_null_noop (h : Heap) : kfree h none = h := rfl

/-- After the character switch the cursor satisfies the loosened
bounds the wrap check expects: the column is at most 80, and it can be
exactly 80 only in the plain-character branch, where the row was not
advanced. -/
lemma putcharSwitch_bounds (c : Nat) (s : Screen) (h : ScreenInv s) :
    0 ≤ (putcharSwitch c s).row ∧ 0 ≤ (putcharSwitch c s).col ∧
    (((putcharSwitch c s).col ≤ 79 ∧ (putcharSwitch c s).row ≤ 25) ∨
     ((putcharSwitch c s).col = 80 ∧ (putcharSwitch c s).row ≤ 24)) := by
  obtain ⟨h1, h2, h3, h4⟩ := h
  simp only [putcharSwitch, tabStop]
  split_ifs <;> (try dsimp only) <;> omega

/-- After the wrap check the cursor is back inside the grid columns,
with the row at most 25 (the scroll check handles row 25). -/
lemma putcharWrap_bounds (s : Screen)
    (h : 0 ≤ s.row ∧ 0 ≤ s.col ∧
      ((s.col ≤ 79 ∧ s.row ≤ 25) ∨ (s.col = 80 ∧ s.row ≤ 24))) :
    0 ≤ (putcharWrap s).row ∧ (putcharWrap s).row ≤ 25 ∧
    0 ≤ (putcharWrap s).col ∧ (putcharWrap s).col ≤ 79 := by
  simp only [putcharWrap]
  split_ifs <;> (try dsimp only) <;> omega

/-- The scroll check restores the full cursor invariant. -/
lemma putcharScroll_bounds (s : Screen)
    (h : 0 ≤ s.row ∧ s.row ≤ 25 ∧ 0 ≤ s.col ∧ s.col ≤ 79) :
    ScreenInv (putcharScroll s) := by
  simp only [ScreenInv, putcharScroll, scroll_up]
  split_ifs <;> (try dsimp only) <;> omega

/-- `screen_putchar` preserves the cursor invariant. -/
lemma screenInv_putchar (c : Nat) (s : Screen) (h : ScreenInv s) :
    ScreenInv (screen_putchar c s) :=
  putcharScroll_bounds _ (by
    have hb := putcharWrap_bounds _ (putcharSwitch_bounds c s h)
    exact ⟨hb.1, hb.2.1, hb.2.2.1, hb.2.2.2⟩)

/-- `screen_write` preserves the cursor invariant. -/
lemma screenInv_write (str : List Nat) :
    ∀ s : Screen, ScreenInv s → ScreenInv (screen_write str s) := by
  induction str with
  | nil => intro s h; exact h
  | cons c t ih =>
    intro s h
    simp only [screen_write, List.foldl_cons] at *
    exact ih _ (screenInv_putchar c s h)

/-- `screen_set_cursor` preserves the cursor invariant: each
coordinate is overwritten only after its own range check. -/
lemma screenInv_set_cursor (r c : Int) (s : Screen) (h : ScreenInv s) :
    ScreenInv (screen_set_cursor r c s) := by
  obtain ⟨h1, h2, h3, h4⟩ := h
  simp only [ScreenInv, screen_set_cursor]
  split_ifs <;> (try dsimp only) <;> omega

/-- Every public mutating screen call preserves the cursor invariant. -/
lemma screenInv_step (op : ScreenOp) (s : Screen) (h : ScreenInv s) :
    ScreenInv (screenStep s op) := by
  cases op with
  | putc c => exact screenInv_putchar c s h
  | write str => exact screenInv_write str s h
  | backspace => exact screenInv_putchar 8 s h
  | setCursor r c => exact screenInv_set_cursor r c s h

/-- Any sequence of screen calls preserves the cursor invariant. -/
lemma screenInv_run (ops : List ScreenOp) :
    ∀ s : Screen, ScreenInv s → ScreenInv (screenRun ops s) := by
  induction ops with
  | nil => intro s h; exact h
  | cons op t ih =>
    intro s h
    simp only [screenRun, List.foldl_cons] at *
    exact ih _ (screenInv_step op s h)

/-- C9: starting from `screen_clear`, every sequence of
`screen_putchar` / `screen_write` / `screen_backspace` /
`screen_set_cursor` calls keeps the cursor inside
0 ≤ row ≤ 24, 0 ≤ col ≤ 79, so the linear offset row·80 + col that the
next `screen_putchar` stores through always lies inside the 2000-cell
display grid. -/
theorem screen_cursor_always_in_grid (ops : List ScreenOp) :
    ScreenInv (screenRun ops (screen_clear initScreen)) ∧
    0 ≤ (screenRun ops (screen_clear initScreen)).row * 80 +
        (screenRun ops (screen_clear initScreen)).col ∧
    (screenRun ops (screen_clear initScreen)).row * 80 +
        (screenRun ops (screen_clear initScreen)).col < 2000 := by
  have h0 : ScreenInv (screen_clear initScreen) := by
    simp only [ScreenInv, screen_clear, initScreen]
    omega
  have h := screenInv_run ops _ h0
  obtain ⟨h1, h2, h3, h4⟩ := h
  exact ⟨⟨h1, h2, h3, h4⟩, by omega, by omega⟩

set_option maxRecDepth 100000 in
/-- C7 counterexample: enqueue 256 characters (255 'a's then one 'b')
into the empty ring buffer with no intervening dequeue.  The producer
index wraps all the way around onto the consumer index, so the buffer
reports itself empty: `keyboard_getchar` would block and not one of
the 256 unread characters — the newest, 'b', included — is
retrievable.  This refutes the claim that overrun only overwrites the
oldest unread characters while newer unread characters remain
retrievable. -/
theorem keyboard_ring_overrun_counterexample :
    (let s := (List.replicate 255 'a' ++ ['b']).foldl (fun st c => ringEnq c st) initKB
     s.bufferStart = s.bufferEnd ∧ (ringDeq s).isNone = true ∧
     ringCount s = 0 ∧ ringUnread s = []) := by decide

/-- A state representing queue `q` has exactly `q.length` unread
characters by the index arithmetic. -/
lemma ringRepr_count {s : KBState} {q : List Char} (h : RingRepr s q) :
    ringCount s = q.length := by
  obtain ⟨h1, h2, h3, h4, -⟩ := h
  unfold ringCount
  omega

/-- The empty ring buffer represents the empty queue. -/
lemma ringRepr_init : RingRepr initKB [] :=
  ⟨by decide, by decide, by decide, by decide, fun j hj => absurd hj (by simp)⟩

/-- Enqueuing preserves the representation as long as fewer than 255
characters are unread: the written cell is exactly the one past the
logical end, and no unread cell is overwritten. -/
lemma ringRepr_enq {s : KBState} {q : List Char} (c : Char)
    (h : RingRepr s q) (hlt : q.length < 255) :
    RingRepr (ringEnq c s) (q ++ [c]) := by
  obtain ⟨h1, h2, h3, h4, h5⟩ := h
  refine ⟨h1, ?_, ?_, ?_, ?_⟩
  · dsimp only [ringEnq]; omega
  · simp only [List.length_append, List.length_cons, List.length_nil]; omega
  · simp only [ringEnq, List.length_append, List.length_cons, List.length_nil]; omega
  · intro j hj
    simp only [List.length_append, List.length_cons, List.length_nil] at hj
    dsimp only [ringEnq]
    rcases Nat.lt_or_ge j q.length with hj' | hj'
    · have hne : (s.bufferStart + j) % 256 ≠ s.bufferEnd := by omega
      rw [Function.update_noteq hne, h5 j hj', List.getD_append _ _ _ _ hj']
    · have hj2 : j = q.length := by omega
      subst hj2
      have hidx : (s.bufferStart + q.length) % 256 = s.bufferEnd := h4.symm
      rw [hidx, Function.update_same,
          List.getD_append_right _ _ _ _ (le_refl q.length)]
      simp

/-- Dequeuing from a state representing `c :: q` returns exactly `c`
and leaves a state representing `q`. -/
lemma ringRepr_deq {s : KBState} {q : List Char} {c : Char}
    (h : RingRepr s (c :: q)) :
    ringDeq s = some (c, { s with bufferStart := (s.bufferStart + 1) % 256 }) ∧
    RingRepr { s with bufferStart := (s.bufferStart + 1) % 256 } q := by
  obtain ⟨h1, h2, h3, h4, h5⟩ := h
  rw [List.length_cons] at h3 h4
  have hne : s.bufferStart ≠ s.bufferEnd := by
    intro he; omega
  have hhead : s.keyBuffer s.bufferStart = c := by
    have := h5 0 (by simp)
    simpa [Nat.mod_eq_of_lt h1] using this
  refine ⟨by simp [ringDeq, hne, hhead], ?_, h2, by omega, ?_, ?_⟩
  · dsimp only; omega
  · dsimp only; omega
  · intro j hj
    dsimp only
    have hcell := h5 (j + 1) (by simp; omega)
    have hidx : ((s.bufferStart + 1) % 256 + j) % 256 = (s.bufferStart + (j + 1)) % 256 := by
      omega
    rw [hidx, hcell]
    simp [List.getD_cons_succ]

/-- FIFO correctness of the ring buffer relative to the logical queue:
along any in-bounds trace, the dequeued characters are exactly the
first `ringDeqCount` characters of the pending queue followed by the
newly enqueued ones, in order. -/
lemma ringFifo_aux :
    ∀ (t : List RingOp) (s : KBState) (q : List Char),
      RingRepr s q → ringOkTrace s t = true →
      ringOutputs s t = (q ++ ringEnqs t).take (ringDeqCount t) := by
  intro t
  induction t with
  | nil => intro s q _ _; simp [ringOutputs, ringDeqCount]
  | cons op rest ih =>
    intro s q hr hok
    cases op with
    | enq c =>
      simp only [ringOkTrace, Bool.and_eq_true, decide_eq_true_eq] at hok
      obtain ⟨hcnt, hok'⟩ := hok
      have hlen : q.length < 255 := by rwa [ringRepr_count hr] at hcnt
      have hr' := ringRepr_enq c hr hlen
      simp only [ringOutputs, ringStepState, List.nil_append]
      rw [ih _ _ hr' hok']
      simp [ringEnqs, ringDeqCount, List.append_assoc]
    | deq =>
      simp only [ringOkTrace, Bool.and_eq_true, decide_eq_true_eq] at hok
      obtain ⟨hne, hok'⟩ := hok
      obtain ⟨c, q', rfl⟩ : ∃ c q', q = c :: q' := by
        cases q with
        | nil =>
          exfalso
          obtain ⟨h1, h2, h3, h4, -⟩ := hr
          simp only [List.length_nil] at h4
          exact hne (by omega)
        | cons c q' => exact ⟨c, q', rfl⟩
      obtain ⟨hdeq, hr'⟩ := ringRepr_deq hr
      simp only [ringStepState, hdeq] at hok'
      simp only [ringOutputs, ringStepState, hdeq]
      rw [ih _ _ hr' hok']
      simp [ringDeqCount, ringEnqs]

/-- C7 (amended): the 256-byte ring buffer is a strict FIFO between
the IRQ1 producer and the `keyboard_getchar` consumer provided the
producer never gets 256 or more characters ahead: along any trace in
which every enqueue happens with at most 254 unread characters and
every dequeue on a non-empty buffer, the characters dequeued are
exactly the characters enqueued, in enqueue order.  (Without that
bound the claim fails: when the producer wraps fully around, the
equal-index state reads as empty and unread characters — newer ones
included, not only the oldest — become unretrievable, as the
counterexample shows.) -/
theorem keyboard_ring_fifo (t : List RingOp)
    (h : ringOkTrace initKB t = true) :
    ringOutputs initKB t = (ringEnqs t).take (ringDeqCount t) := by
  have := ringFifo_aux t initKB [] ringRepr_init h
  simpa using this

/-- Witness for C7 (amended) on a concrete interleaved trace. -/
theorem keyboard_ring_fifo_witness :
    ringOkTrace initKB
      ([.enq 'x', .enq 'y', .deq, .enq 'z', .deq, .deq] : List RingOp) = true ∧
    ringOutputs initKB
      ([.enq 'x', .enq 'y', .deq, .enq 'z', .deq, .deq] : List RingOp) =
      (ringEnqs ([.enq 'x', .enq 'y', .deq, .enq 'z', .deq, .deq] : List RingOp)).take
        (ringDeqCount ([.enq 'x', .enq 'y', .deq, .enq 'z', .deq, .deq] : List RingOp)) :=
  ⟨by decide, keyboard_ring_fifo _ (by decide)⟩

end AnnotatOS
